import Mathlib

/-!
Verification development for the ai-content-mvp repository.

The executable core is `real_mvp_extension.js` (a Chrome extension:
`background.js` service worker with `initializeModel`, `handleAnalyzeText`,
`calculateAIProbability`, `handleFeedback`, `sendFeedbackToBackend`,
`anonymizeURL`, `updateAnalysisStats`) plus `backend/server.js` (an Express
feedback server with `POST /api/feedback`).  Texts are shallowly embedded
as `List Char`, JS numbers as `ℚ`, promises as settled `Except` values,
and the asynchronous handlers as explicit state-passing functions.  The
number of classifier (rule-engine) invocations is tracked explicitly so
that caching/deduplication claims can be stated.  Recursions that are not
structural in the source string use a fuel parameter (fuel = length of the
input, always sufficient), so every definition computes by kernel
reduction.
-/

namespace AiContentMvp

/-- Sentence terminators of the regex `[^.!?]+[.!?]+` used by
`handleAnalyzeText` to split the input into sentences. -/
def isTerm (c : Char) : Bool := c = '.' || c = '!' || c = '?'

/-- Whitespace characters (ASCII portion of the JavaScript `\s` class),
used by `String.prototype.trim` and by the spec-modelled normalizer. -/
def isWs (c : Char) : Bool :=
  c = ' ' || c = '\t' || c = '\n' || c = '\r' || c = '\x0b' || c = '\x0c'

/-- JavaScript `String.prototype.trim`: drop whitespace from both ends. -/
def trimChars (l : List Char) : List Char :=
  ((l.dropWhile isWs).reverse.dropWhile isWs).reverse

/-- One step of the global regex match `text.match(/[^.!?]+[.!?]+/g)`:
starting at offset `pos`, skip characters at which the regex cannot match
(terminator characters), then take a maximal nonempty run of
non-terminators followed by a maximal nonempty run of terminators.  Each
produced triple is `(matched characters, start offset, end offset)`.
A trailing run without a closing terminator yields no match, exactly as
the regex requires at least one `[.!?]`.  The fuel argument only bounds
the recursion; `fuel = length of the list` always suffices. -/
def sentAuxF : Nat → List Char → Nat → List (List Char × Nat × Nat)
  | 0, _, _ => []
  | _ + 1, [], _ => []
  | fuel + 1, c :: cs, pos =>
    if isTerm c then sentAuxF fuel cs (pos + 1)
    else
      let body := (c :: cs).takeWhile (fun x => !isTerm x)
      let rest := (c :: cs).dropWhile (fun x => !isTerm x)
      let punct := rest.takeWhile isTerm
      let rest2 := rest.dropWhile isTerm
      match punct with
      | [] => []
      | _ :: _ =>
        (body ++ punct, pos, pos + body.length + punct.length) ::
          sentAuxF fuel rest2 (pos + body.length + punct.length)

/-- All matches of `text.match(/[^.!?]+[.!?]+/g)`, with their spans. -/
def matchSentences (text : List Char) : List (List Char × Nat × Nat) :=
  sentAuxF text.length text 0

/-- `const sentences = text.match(/[^.!?]+[.!?]+/g) || []` — the matched
sentence strings, in match order. -/
def splitSentences (text : List Char) : List (List Char) :=
  (matchSentences text).map (fun x => x.1)

/-- Does `hay` start with `needle`?  (Helper for substring search.) -/
def startsWithChars : List Char → List Char → Bool
  | [], _ => true
  | _ :: _, [] => false
  | a :: as, b :: bs => a = b && startsWithChars as bs

/-- JavaScript `hay.includes(needle)`: substring occurrence test. -/
def containsSub (needle : List Char) : List Char → Bool
  | [] => startsWithChars needle []
  | c :: cs => startsWithChars needle (c :: cs) || containsSub needle cs

/-- The `aiKeywords` array of `calculateAIProbability`. -/
def aiKeywords : List (List Char) :=
  ["artificial intelligence".data, "machine learning".data,
   "furthermore".data, "moreover".data, "delve into".data,
   "leverage".data, "utilize".data, "optimize".data, "paradigm".data,
   "comprehensive".data, "robust".data, "seamless".data]

/-- Word characters of the regex `\b` boundary (`\w` = `[A-Za-z0-9_]`). -/
def isWordChar (c : Char) : Bool :=
  ('a' ≤ c && c ≤ 'z') || ('A' ≤ c && c ≤ 'Z') || ('0' ≤ c && c ≤ '9') || c = '_'

/-- The alternatives of the formal-pattern regex
`/\b(thus|hence|therefore|consequently)\b/i`, lowercased. -/
def formalWords : List (List Char) :=
  ["thus".data, "hence".data, "therefore".data, "consequently".data]

/-- Does `suffix` start with word `w` followed by a `\b` boundary on the
right (end of string or a non-word character)? -/
def matchesWordAt (w : List Char) (suffix : List Char) : Bool :=
  startsWithChars w suffix &&
    (match suffix.drop w.length with
     | [] => true
     | c :: _ => !isWordChar c)

/-- Scan of `/\b(thus|hence|therefore|consequently)\b/i.test(text)` over
the lowercased text; `prev` is the character left of the current
position, used for the left `\b` boundary. -/
def formalAux (prev : Option Char) : List Char → Bool
  | [] => false
  | c :: cs =>
    ((match prev with
      | none => true
      | some p => !isWordChar p) &&
      formalWords.any (fun w => matchesWordAt w (c :: cs)))
    || formalAux (some c) cs

/-- `/\b(thus|hence|therefore|consequently)\b/i.test(text)` (the `/i`
flag is modelled by lowercasing the text and matching lowercase words). -/
def hasFormalPattern (lowerText : List Char) : Bool :=
  formalAux none lowerText

/-- `calculateAIProbability(text, modelScore)` from `background.js`:
base 0.3, +0.1 per AI keyword contained in the lowercased text, +0.08
for a formal connective, +0.05 when `text.split(' ').length > 25`
(i.e. the text holds more than 24 space characters), + 0.2·modelScore,
clamped into [0, 1] by `Math.min(Math.max(probability, 0), 1)`. -/
def calculateAIProbability (text : List Char) (modelScore : ℚ) : ℚ :=
  let lowerText := text.map Char.toLower
  let p0 : ℚ := 3/10 +
    ((aiKeywords.filter (fun k => containsSub k lowerText)).length : ℚ) * (1/10)
  let p1 : ℚ := if hasFormalPattern lowerText then p0 + 8/100 else p0
  let p2 : ℚ := if 25 < text.count ' ' + 1 then p1 + 5/100 else p1
  let p3 : ℚ := p2 + modelScore * (2/10)
  min (max p3 0) 1

/-- The level ternary of `handleAnalyzeText`:
`probability > 0.7 ? 'high' : probability > 0.4 ? 'medium' : 'low'`. -/
def levelOf (probability : ℚ) : String :=
  if 7/10 < probability then "high"
  else if 4/10 < probability then "medium"
  else "low"

/-- Resolved value of one `classifier(trimmed, { topk: 1 })` call:
`output[0]` with its `score` and `label`. -/
structure ClassifierOutput where
  score : ℚ
  label : String
deriving DecidableEq, Repr

/-- The loaded classifier, modelled as a deterministic black box; a call
may also reject (the `catch` branch of the per-sentence analysis). -/
def Classifier : Type := List Char → Except String ClassifierOutput

/-- One element of the array resolved by `handleAnalyzeText`:
`{ text: trimmed, probability, level, modelScore, modelLabel }`. -/
structure AnalysisResult where
  text : List Char
  probability : ℚ
  level : String
  modelScore : ℚ
  modelLabel : String
deriving DecidableEq, Repr

/-- The per-sentence body of the batch map in `handleAnalyzeText`.
Returns the produced result (or `none` for a skipped / failed sentence)
together with the number of classifier invocations it performed (0 when
the sentence is shorter than 15 characters after trimming, 1 otherwise:
the engine is invoked even when the call then fails). -/
def analyzeSentence (cl : Classifier) (sentence : List Char) :
    Option AnalysisResult × Nat :=
  let trimmed := trimChars sentence
  if trimmed.length < 15 then (none, 0)
  else
    match cl trimmed with
    | Except.error _ => (none, 1)
    | Except.ok output =>
      let score := output.score
      let probability := calculateAIProbability trimmed score
      (some { text := trimmed, probability := probability,
              level := levelOf probability, modelScore := score,
              modelLabel := output.label }, 1)

/-- `sentences.slice(i, i + batchSize)` chunking with `batchSize = 5`;
fuel-driven recursion (`fuel = length` suffices). -/
def chunksF : Nat → List α → List (List α)
  | 0, _ => []
  | _ + 1, [] => []
  | fuel + 1, c :: cs => (c :: cs).take 5 :: chunksF fuel ((c :: cs).drop 5)

/-- The batches `sentences.slice(i, i+5)` processed by the main loop. -/
def chunks5 (l : List α) : List (List α) := chunksF l.length l

/-- The `analysisStats` object kept in `chrome.storage.local`. -/
structure Stats where
  total : Nat
  high : Nat
  medium : Nat
  low : Nat
deriving DecidableEq, Repr

/-- One step of `updateAnalysisStats`: `analysisStats.total++` and
`analysisStats[r.level]++`. -/
def bumpStats (st : Stats) (lvl : String) : Stats :=
  { total := st.total + 1,
    high := if lvl = "high" then st.high + 1 else st.high,
    medium := if lvl = "medium" then st.medium + 1 else st.medium,
    low := if lvl = "low" then st.low + 1 else st.low }

/-- `updateAnalysisStats(results)` from `background.js`. -/
def updateAnalysisStats (st : Stats) (results : List AnalysisResult) : Stats :=
  results.foldl (fun acc r => bumpStats acc r.level) st

/-- Observable state of the analysis side of the service worker: the
stored `analysisStats`, instrumented with a running count of classifier
(rule-engine) invocations. -/
structure ScanState where
  engineCalls : Nat
  analysisStats : Stats
deriving DecidableEq, Repr

/-- `handleAnalyzeText(text, tabId)` from `background.js` (with the model
already loaded): split the text into sentences with
`text.match(/[^.!?]+[.!?]+/g) || []`; if there are none, resolve with
`[]`; otherwise process the sentences in batches of 5, mapping each
through the per-sentence analysis, keep the non-null results in order,
update `analysisStats`, and resolve with the result array.  There is no
cache and no key lookup: every call runs the classifier afresh. -/
def handleAnalyzeText (cl : Classifier) (text : List Char) (s : ScanState) :
    List AnalysisResult × ScanState :=
  let sentences := splitSentences text
  if sentences.isEmpty then ([], s)
  else
    let processed := (chunks5 sentences).map
      (fun batch => batch.map (analyzeSentence cl))
    let results :=
      (processed.map (fun br => (br.map Prod.fst).reduceOption)).flatten
    let calls := (processed.flatten.map Prod.snd).sum
    (results,
      { engineCalls := s.engineCalls + calls,
        analysisStats := updateAnalysisStats s.analysisStats results })

/-- Result list of one scan, as a function of classifier and text only
(shown below to equal the first component of `handleAnalyzeText`). -/
def scanResults (cl : Classifier) (text : List Char) : List AnalysisResult :=
  ((splitSentences text).map (fun x => (analyzeSentence cl x).1)).reduceOption

/-- Classifier invocations performed by one scan of `text`. -/
def scanCalls (cl : Classifier) (text : List Char) : Nat :=
  ((splitSentences text).map (fun x => (analyzeSentence cl x).2)).sum

/-- `n` scan requests for the same text.  `handleAnalyzeText` shares no
per-text in-flight marker and no cache, so the classifier-invocation
count is the same under every interleaving of the concurrent requests;
the serialized composition below therefore represents all schedules. -/
def runRequests (cl : Classifier) (text : List Char) :
    Nat → ScanState → List (List AnalysisResult) × ScanState
  | 0, s => ([], s)
  | n + 1, s =>
    let p := handleAnalyzeText cl text s
    let rest := runRequests cl text n p.2
    (p.1 :: rest.1, rest.2)

/-- JSON-shaped values, used to state claims about the shape of the data
the scan operation resolves with. -/
inductive JVal where
  | str : String → JVal
  | num : ℚ → JVal
  | bool : Bool → JVal
  | arr : List JVal → JVal
  | obj : List (String × JVal) → JVal

/-- JSON form of one element of the array resolved by `handleAnalyzeText`. -/
def resultToJson (r : AnalysisResult) : JVal :=
  JVal.obj
    [("text", JVal.str (String.mk r.text)),
     ("probability", JVal.num r.probability),
     ("level", JVal.str r.level),
     ("modelScore", JVal.num r.modelScore),
     ("modelLabel", JVal.str r.modelLabel)]

/-- JSON form of the value `handleAnalyzeText` resolves with (the
`result` field of the `{ success: true, result }` response message). -/
def analyzeResponse (cl : Classifier) (text : List Char) (s : ScanState) :
    JVal :=
  JVal.arr ((handleAnalyzeText cl text s).1.map resultToJson)

/-- Is the JSON value an object? -/
def jIsObj : JVal → Bool
  | JVal.obj _ => true
  | _ => false

/-- Is the JSON value an array? -/
def jIsArr : JVal → Bool
  | JVal.arr _ => true
  | _ => false

/-- Does an object value carry the given key? -/
def jHasKey (j : JVal) (k : String) : Bool :=
  match j with
  | JVal.obj kvs => kvs.any (fun kv => kv.1 = k)
  | _ => false

/-- Keys of an object value, in order. -/
def jKeys : JVal → List String
  | JVal.obj kvs => kvs.map (fun kv => kv.1)
  | _ => []

/-- Do all elements of an array value satisfy the test?  (`false` on
non-arrays.) -/
def jArrAll (j : JVal) (p : JVal → Bool) : Bool :=
  match j with
  | JVal.arr l => l.all p
  | _ => false

/-- Is the JSON value a nonempty array? -/
def jArrNonempty : JVal → Bool
  | JVal.arr (_ :: _) => true
  | _ => false

/-- Body of a `POST /api/feedback` request as `backend/server.js` reads
it (each field may be absent, hence the `||` defaults in the code). -/
structure FeedbackBody where
  text_hash : Option String
  text_length : Option Nat
  model_version : Option String
  score : Option ℚ
  feedback : Option String
deriving DecidableEq, Repr

/-- One element of the server-side `feedback` array. -/
structure FeedbackRecord where
  text_hash : String
  length : Nat
  model_version : String
  score : ℚ
  feedback : String
  timestamp : String
deriving DecidableEq, Repr

/-- The `POST /api/feedback` handler of `backend/server.js`: push one
record (with `||` defaults) onto the in-memory `feedback` array and
respond `{status: 'received', count: feedback.length}`.  There is no
capacity check and no eviction of any kind. -/
def postFeedback (store : List FeedbackRecord) (data : FeedbackBody)
    (now : String) : List FeedbackRecord × String × Nat :=
  let record : FeedbackRecord :=
    { text_hash := data.text_hash.getD "",
      length := data.text_length.getD 0,
      model_version := data.model_version.getD "v0",
      score := data.score.getD 0,
      feedback := data.feedback.getD "",
      timestamp := now }
  let store2 := store ++ [record]
  (store2, "received", store2.length)

instance : DecidableEq (Except String Unit) := fun a b =>
  match a, b with
  | Except.ok _, Except.ok _ => isTrue rfl
  | Except.error e, Except.error f =>
    if h : e = f then isTrue (by rw [h]) else isFalse (by simp [h])
  | Except.ok _, Except.error _ => isFalse (by simp)
  | Except.error _, Except.ok _ => isFalse (by simp)

/-- State of the model-loading globals of `background.js`:
`modelLoadingPromise` (modelled by the settled value of the promise it
holds, `none` while unset), `modelLoaded`, the `modelLoaded` flag
mirrored into `chrome.storage.local`, and an instrumentation counter of
how many times the loading body actually ran. -/
structure ModelState where
  modelLoadingPromise : Option (Except String Unit)
  modelLoaded : Bool
  storageModelLoaded : Option Bool
  loadAttempts : Nat
deriving DecidableEq, Repr

/-- `initializeModel()` from `background.js`: if `modelLoadingPromise`
is set, return it unchanged (the in-flight / settled promise is shared
by every caller); otherwise run the loading body once — on success set
`modelLoaded = true`, on failure set `modelLoaded = false` and rethrow —
and store the resulting promise in `modelLoadingPromise`.  Nothing ever
resets `modelLoadingPromise` to `null`. -/
def initializeModel (loader : Except String Unit) (st : ModelState) :
    Except String Unit × ModelState :=
  match st.modelLoadingPromise with
  | some p => (p, st)
  | none =>
    match loader with
    | Except.ok _ =>
      (Except.ok (),
        { modelLoadingPromise := some (Except.ok ()),
          modelLoaded := true, storageModelLoaded := some true,
          loadAttempts := st.loadAttempts + 1 })
    | Except.error e =>
      (Except.error e,
        { modelLoadingPromise := some (Except.error e),
          modelLoaded := false, storageModelLoaded := some false,
          loadAttempts := st.loadAttempts + 1 })

/-- A feedback item as submitted by the content script. -/
structure FeedbackInput where
  text : List Char
  probability : ℚ
  level : String
  feedbackType : String
  url : List Char
deriving DecidableEq, Repr

/-- A feedback item as stored in `chrome.storage.local.feedbackData`
(the submitted item plus `timestamp: Date.now()`). -/
structure StoredFeedback where
  text : List Char
  probability : ℚ
  level : String
  feedbackType : String
  url : List Char
  timestamp : Nat
deriving DecidableEq, Repr

/-- A feedback item as sent to the backend by `sendFeedbackToBackend`
(URL anonymized to its hostname). -/
structure SentFeedback where
  text : List Char
  probability : ℚ
  level : String
  feedbackType : String
  url : List Char
  timestamp : Nat
deriving DecidableEq, Repr

/-- `anonymizeURL(url)` from `background.js`: `new URL(url).hostname`,
or `'unknown'` when URL construction throws.  Simplified model of URL
parsing: a URL with a `scheme://` prefix and a nonempty host yields the
host (up to the first `/`, `:`, `?` or `#`); anything else throws. -/
def anonymizeURL (url : List Char) : List Char :=
  let afterScheme :=
    (url.dropWhile (fun c => c ≠ ':')).drop 1
  if url.takeWhile (fun c => c ≠ ':') ≠ [] &&
      startsWithChars "//".data afterScheme then
    let hostPart := (afterScheme.drop 2).takeWhile
      (fun c => c ≠ '/' && c ≠ ':' && c ≠ '?' && c ≠ '#')
    if hostPart.isEmpty then "unknown".data else hostPart
  else "unknown".data

/-- State touched by the feedback path: the locally stored
`feedbackData` array and (instrumentation) the batches the backend
actually received successfully. -/
structure FbState where
  feedbackData : List StoredFeedback
  backendReceived : List (List SentFeedback)
deriving DecidableEq, Repr

/-- The durable backend, modelled as a black box: `Except` for a thrown
network error, `Bool` for `response.ok`. -/
def BackendPost : Type := List SentFeedback → Except String Bool

/-- `sendFeedbackToBackend(feedbackArray)` from `background.js`: map the
stored items to their anonymized payload and `fetch` them to the
backend.  A non-ok response is only warned about and a thrown error is
caught ("Non-critical error - don't throw"), so this function never
fails, whatever the backend does. -/
def sendFeedbackToBackend (post : BackendPost)
    (items : List StoredFeedback) (st : FbState) : FbState :=
  let payload : List SentFeedback := items.map
    (fun f => { text := f.text, probability := f.probability,
                level := f.level, feedbackType := f.feedbackType,
                url := anonymizeURL f.url, timestamp := f.timestamp })
  match post payload with
  | Except.ok true => { st with backendReceived := st.backendReceived ++ [payload] }
  | Except.ok false => st
  | Except.error _ => st

/-- `handleFeedback(feedback)` from `background.js`: append the item
(with a timestamp) to the stored `feedbackData`; once the batch reaches
10 items, send it to the backend and then unconditionally clear the
stored batch (`feedbackData: []`) — the clearing does not depend on
whether the send succeeded. -/
def handleFeedback (post : BackendPost) (fb : FeedbackInput) (now : Nat)
    (st : FbState) : Except String Unit × FbState :=
  let stored : StoredFeedback :=
    { text := fb.text, probability := fb.probability, level := fb.level,
      feedbackType := fb.feedbackType, url := fb.url, timestamp := now }
  let feedbackData := st.feedbackData ++ [stored]
  let st1 : FbState := { st with feedbackData := feedbackData }
  if 10 ≤ feedbackData.length then
    let st2 := sendFeedbackToBackend post feedbackData st1
    (Except.ok (), { st2 with feedbackData := [] })
  else
    (Except.ok (), st1)

/-- Modelled from the spec: the repository contains no implementation of
the Content Key Deriver (`normalize` / `deriveKey`); only the
architecture document describes it.  `normCore` collapses each run of
whitespace to a single space and trims both ends, as a one-pass state
machine: `emitted` records whether a word character has been emitted and
`pend` whether whitespace has been seen since. -/
def normCore : List Char → Bool → Bool → List Char
  | [], _, _ => []
  | c :: cs, emitted, pend =>
    if isWs c then normCore cs emitted true
    else if emitted && pend then ' ' :: c :: normCore cs true false
    else c :: normCore cs true false

/-- Modelled from the spec: `normalize(text)` — collapse consecutive
whitespace to a single space and trim leading/trailing whitespace. -/
def normalize (l : List Char) : List Char := normCore l false false

/-- Modelled from the spec: the collision-resistant content hash (a
256-bit fingerprint in the spec), embedded as a deterministic pure
function of the character list. -/
def hashChars (l : List Char) : Nat :=
  l.foldl (fun h c => (h * 1099511628211 + c.toNat) % 2 ^ 256) 14695981039346656037

/-- Modelled from the spec: `deriveKey(text)` = hash of the normalized
text. -/
def deriveKey (l : List Char) : Nat := hashChars (normalize l)

/-- Separator discipline of a normalized string: every whitespace
character occurring anywhere in the list is a single `' '` immediately
followed by a non-whitespace character. -/
def sepOk : List Char → Bool
  | [] => true
  | c :: cs =>
    (if isWs c then
      decide (c = ' ') &&
        (match cs with
         | [] => false
         | d :: _ => !isWs d)
     else true) && sepOk cs

/-- A list is in normal form: it does not start with whitespace and obeys
the separator discipline (hence no leading/trailing whitespace and no
two consecutive whitespace characters, all spaces). -/
def isNormB (l : List Char) : Bool :=
  (match l with
   | [] => true
   | c :: _ => !isWs c) && sepOk l

/-- A concrete deterministic classifier used for concrete evaluations:
every call resolves with score 0 and label POSITIVE. -/
def clK : Classifier := fun _ => Except.ok { score := 0, label := "POSITIVE" }

/-- A concrete input text with exactly one qualifying sentence. -/
def t1 : List Char := "This is a test sentence.".data

/-- A concrete input text with exactly two qualifying sentences. -/
def t2 : List Char := "This is a test sentence. Here is another long sentence!".data

/-- The initial analysis state: zeroed statistics, no engine call yet. -/
def s0 : ScanState :=
  { engineCalls := 0,
    analysisStats := { total := 0, high := 0, medium := 0, low := 0 } }

/-- The initial model-loading state of a fresh service worker. -/
def mst0 : ModelState :=
  { modelLoadingPromise := none, modelLoaded := false,
    storageModelLoaded := none, loadAttempts := 0 }

/-- A concrete feedback item. -/
def fbX : FeedbackInput :=
  { text := "This is a test sentence.".data, probability := 3/10,
    level := "low", feedbackType := "agree",
    url := "https://example.com/post/1".data }

/-- A concrete stored feedback item. -/
def storedX : StoredFeedback :=
  { text := "This is a test sentence.".data, probability := 3/10,
    level := "low", feedbackType := "agree",
    url := "https://example.com/post/1".data, timestamp := 0 }

/-- A feedback-path state already holding nine stored items, so that the
next submission reaches the batch threshold of 10. -/
def st9 : FbState :=
  { feedbackData := List.replicate 9 storedX, backendReceived := [] }

/-- A durable backend that always fails (network error on every call). -/
def postFail : BackendPost := fun _ => Except.error "fetch failed"

/-- A concrete load-failure message. -/
def errNet : String := "network error"

/-- Three distinct feedback bodies (distinct `text_hash` values). -/
def fbBody (h : String) : FeedbackBody :=
  { text_hash := some h, text_length := some 12, model_version := some "v0",
    score := some (1/2), feedback := some "agree" }

/-- Fold a sequence of `POST /api/feedback` requests over the server
store (each request paired with its arrival timestamp). -/
def postMany (reqs : List (FeedbackBody × String))
    (store : List FeedbackRecord) : List FeedbackRecord :=
  reqs.foldl (fun st r => (postFeedback st r.1 r.2).1) store

theorem chunksF_flatten {α : Type} (fuel : Nat) :
    ∀ l : List α, l.length ≤ fuel → (chunksF fuel l).flatten = l := by
  induction fuel with
  | zero =>
    intro l h
    have hl : l = [] := List.eq_nil_of_length_eq_zero (Nat.le_zero.mp h)
    subst hl
    rfl
  | succ fuel ih =>
    intro l h
    match l with
    | [] => rfl
    | c :: cs =>
      simp only [chunksF, List.flatten_cons]
      rw [ih ((c :: cs).drop 5) (by simp only [List.length_drop] at *; omega)]
      exact List.take_append_drop 5 (c :: cs)

theorem chunks5_flatten {α : Type} (l : List α) : (chunks5 l).flatten = l :=
  chunksF_flatten l.length l le_rfl

theorem flatten_map_reduceOption {α β : Type} (g : α → Option β) :
    ∀ L : List (List α),
      (L.map (fun b => (b.map g).reduceOption)).flatten =
        (L.flatten.map g).reduceOption := by
  intro L
  induction L with
  | nil => rfl
  | cons b bs ih =>
    simp only [List.map_cons, List.flatten_cons, List.map_append,
      List.reduceOption_append, ih]

/-- `handleAnalyzeText` in closed form: the result list is a pure
function of classifier and text, the engine-invocation counter grows by
`scanCalls`, and the stored statistics are updated from the results. -/
theorem handleAnalyzeText_eq (cl : Classifier) (text : List Char)
    (s : ScanState) :
    handleAnalyzeText cl text s =
      (scanResults cl text,
        { engineCalls := s.engineCalls + scanCalls cl text,
          analysisStats :=
            updateAnalysisStats s.analysisStats (scanResults cl text) }) := by
  by_cases hE : (splitSentences text).isEmpty
  · have hnil : splitSentences text = [] := by
      simpa [List.isEmpty_iff] using hE
    simp [handleAnalyzeText, scanResults, scanCalls, hnil, updateAnalysisStats]
  · have hres :
        (((chunks5 (splitSentences text)).map
            (fun batch => batch.map (analyzeSentence cl))).map
          (fun br => (br.map Prod.fst).reduceOption)).flatten =
          scanResults cl text := by
      simp only [List.map_map, Function.comp_def]
      rw [flatten_map_reduceOption (fun x => (analyzeSentence cl x).1)
        (chunks5 (splitSentences text)), chunks5_flatten]
      rfl
    have hcalls :
        ((((chunks5 (splitSentences text)).map
            (fun batch => batch.map (analyzeSentence cl))).flatten).map
          Prod.snd).sum = scanCalls cl text := by
      rw [← List.map_flatten, chunks5_flatten, List.map_map]
      rfl
    simp only [handleAnalyzeText, hE, Bool.false_eq_true, if_false, hres, hcalls]

theorem sentAuxF_spans (fuel : Nat) :
    ∀ (l : List Char) (pos : Nat),
      (∀ x ∈ sentAuxF fuel l pos,
        pos ≤ x.2.1 ∧ x.2.1 < x.2.2 ∧ x.2.2 ≤ pos + l.length) ∧
      List.Pairwise (fun a b => a.2.2 ≤ b.2.1) (sentAuxF fuel l pos) := by
  induction fuel with
  | zero => intro l pos; simp [sentAuxF]
  | succ fuel ih =>
    intro l pos
    match l with
    | [] => simp [sentAuxF]
    | c :: cs =>
      by_cases hc : isTerm c
      · simp only [sentAuxF, hc, if_true]
        obtain ⟨hb, hp⟩ := ih cs (pos + 1)
        refine ⟨fun x hx => ?_, hp⟩
        obtain ⟨h1, h2, h3⟩ := hb x hx
        refine ⟨by omega, h2, ?_⟩
        simp only [List.length_cons]
        omega
      · have hbody : ((c :: cs).takeWhile (fun x => !isTerm x)).length +
            ((c :: cs).dropWhile (fun x => !isTerm x)).length = cs.length + 1 := by
          rw [← List.length_append, List.takeWhile_append_dropWhile]
          simp
        have hpr : (((c :: cs).dropWhile (fun x => !isTerm x)).takeWhile isTerm).length +
            (((c :: cs).dropWhile (fun x => !isTerm x)).dropWhile isTerm).length =
            ((c :: cs).dropWhile (fun x => !isTerm x)).length := by
          rw [← List.length_append, List.takeWhile_append_dropWhile]
        have hbpos : 1 ≤ ((c :: cs).takeWhile (fun x => !isTerm x)).length := by
          simp [List.takeWhile_cons, hc]
        cases hq : ((c :: cs).dropWhile (fun x => !isTerm x)).takeWhile isTerm with
        | nil =>
          simp only [sentAuxF, hc, Bool.false_eq_true, if_false, hq]
          simp
        | cons q qs =>
          simp only [sentAuxF, hc, Bool.false_eq_true, if_false, hq]
          rw [hq] at hpr
          obtain ⟨hb2, hp2⟩ := ih (((c :: cs).dropWhile (fun x => !isTerm x)).dropWhile isTerm)
            (pos + ((c :: cs).takeWhile (fun x => !isTerm x)).length + (q :: qs).length)
          constructor
          · intro x hx
            rcases List.mem_cons.mp hx with hx | hx
            · subst hx
              simp only [List.length_cons] at *
              refine ⟨le_rfl, by omega, by omega⟩
            · obtain ⟨h1, h2, h3⟩ := hb2 x hx
              simp only [List.length_cons] at *
              exact ⟨by omega, h2, by omega⟩
          · rw [List.pairwise_cons]
            refine ⟨fun y hy => ?_, hp2⟩
            obtain ⟨h1, _, _⟩ := hb2 y hy
            exact h1

theorem normCore_fix : ∀ l : List Char, sepOk l = true →
    normCore l true false = l ∧
    (∀ d rest, l = d :: rest → isWs d = false → normCore l true true = ' ' :: l) := by
  intro l
  induction l with
  | nil =>
    intro _
    refine ⟨rfl, ?_⟩
    intro d rest h
    cases h
  | cons c cs ih =>
    intro hsep
    by_cases hw : isWs c
    · cases cs with
      | nil => simp [sepOk, hw] at hsep
      | cons d rest =>
        have hc : c = ' ' := by
          by_contra hne
          simp [sepOk, hw, hne] at hsep
        have hd : isWs d = false := by
          by_contra hne
          simp [sepOk, hw, Bool.not_eq_false] at hsep hne
          simp [hne] at hsep
        have hsep2 : sepOk (d :: rest) = true := by
          simp [sepOk, hw, hc, hd] at hsep
          simpa [sepOk, hd] using hsep
        obtain ⟨_, ih2⟩ := ih hsep2
        have hcs : normCore (d :: rest) true true = ' ' :: d :: rest :=
          ih2 d rest rfl hd
        constructor
        · show normCore (c :: d :: rest) true false = c :: d :: rest
          rw [show normCore (c :: d :: rest) true false =
              normCore (d :: rest) true true from by simp [normCore, hw]]
          rw [hcs, hc]
        · intro e tail he hne
          rw [List.cons.injEq] at he
          rw [← he.1, hw] at hne
          cases hne
    · have hsep2 : sepOk cs = true := by simpa [sepOk, hw] using hsep
      obtain ⟨ih1, _⟩ := ih hsep2
      constructor
      · show normCore (c :: cs) true false = c :: cs
        simp [normCore, hw, ih1]
      · intro d rest h hd
        show normCore (c :: cs) true true = ' ' :: c :: cs
        simp [normCore, hw, ih1]

theorem normalize_fix {l : List Char} (h : isNormB l = true) :
    normalize l = l := by
  cases l with
  | nil => rfl
  | cons c cs =>
    have h1 : isWs c = false := by
      by_contra hne
      simp [isNormB, Bool.not_eq_false] at h hne
      simp [hne] at h
    have h2 : sepOk cs = true := by
      have : sepOk (c :: cs) = true := by
        have hh := h
        simp [isNormB] at hh
        exact hh.2
      simpa [sepOk, h1] using this
    show normCore (c :: cs) false false = c :: cs
    rw [show normCore (c :: cs) false false = c :: normCore cs true false
      from by simp [normCore, h1]]
    rw [(normCore_fix cs h2).1]

theorem sepOk_normCore : ∀ (l : List Char) (e p : Bool),
    sepOk (normCore l e p) = true := by
  intro l
  induction l with
  | nil => intro e p; rfl
  | cons c cs ih =>
    intro e p
    by_cases hw : isWs c
    · rw [show normCore (c :: cs) e p = normCore cs e true from by
        simp [normCore, hw]]
      exact ih e true
    · by_cases hep : (e && p) = true
      · rw [show normCore (c :: cs) e p = ' ' :: c :: normCore cs true false
          from by simp [normCore, hw, hep]]
        have hws : isWs ' ' = true := rfl
        simp [sepOk, hws, hw, ih true false]
      · rw [show normCore (c :: cs) e p = c :: normCore cs true false
          from by simp [normCore, hw, hep]]
        simp [sepOk, hw, ih true false]

theorem normCore_head_not_ws : ∀ (l : List Char) (p : Bool) (c : Char)
    (rest : List Char), normCore l false p = c :: rest → isWs c = false := by
  intro l
  induction l with
  | nil => intro p c rest h; cases h
  | cons a as ih =>
    intro p c rest h
    by_cases hw : isWs a
    · rw [show normCore (a :: as) false p = normCore as false true from by
        simp [normCore, hw]] at h
      exact ih true c rest h
    · rw [show normCore (a :: as) false p = a :: normCore as true false
        from by simp [normCore, hw]] at h
      rw [List.cons.injEq] at h
      rw [← h.1]
      simpa using hw

theorem isNormB_normalize (l : List Char) : isNormB (normalize l) = true := by
  unfold isNormB
  cases hn : normalize l with
  | nil => rfl
  | cons c cs =>
    have h1 : isWs c = false := normCore_head_not_ws l false c cs hn
    have h2 : sepOk (c :: cs) = true := by
      rw [← hn]
      exact sepOk_normCore l false false
    simp [h1, h2]

theorem normalize_idem (l : List Char) :
    normalize (normalize l) = normalize l :=
  normalize_fix (isNormB_normalize l)

theorem calculateAIProbability_nonneg (text : List Char) (ms : ℚ) :
    0 ≤ calculateAIProbability text ms :=
  le_min (le_max_right _ _) zero_le_one

theorem calculateAIProbability_le_one (text : List Char) (ms : ℚ) :
    calculateAIProbability text ms ≤ 1 :=
  min_le_right _ _

theorem levelOf_high_iff (p : ℚ) : levelOf p = "high" ↔ 7/10 < p := by
  unfold levelOf
  split_ifs with h1 h2
  · simp [h1]
  · constructor
    · intro h; exact absurd h (by decide)
    · intro h; exact absurd h h1
  · constructor
    · intro h; exact absurd h (by decide)
    · intro h; exact absurd h h1

theorem levelOf_medium_iff (p : ℚ) :
    levelOf p = "medium" ↔ (4/10 < p ∧ p ≤ 7/10) := by
  unfold levelOf
  split_ifs with h1 h2
  · constructor
    · intro h; exact absurd h (by decide)
    · intro h; exact absurd h1 (not_lt.mpr h.2)
  · constructor
    · intro _; exact ⟨h2, not_lt.mp h1⟩
    · intro _; rfl
  · constructor
    · intro h; exact absurd h (by decide)
    · intro h; exact absurd h.1 h2

theorem levelOf_low_iff (p : ℚ) : levelOf p = "low" ↔ p ≤ 4/10 := by
  unfold levelOf
  split_ifs with h1 h2
  · constructor
    · intro h; exact absurd h (by decide)
    · intro h
      have : (4:ℚ)/10 < p := lt_of_lt_of_le (by norm_num) (le_of_lt h1)
      exact absurd this (not_lt.mpr h)
  · constructor
    · intro h; exact absurd h (by decide)
    · intro h; exact absurd h2 (not_lt.mpr h)
  · constructor
    · intro _; exact not_lt.mp h2
    · intro _; rfl

theorem mem_scanResults {cl : Classifier} {text : List Char}
    {r : AnalysisResult} (h : r ∈ scanResults cl text) :
    r.level = levelOf r.probability ∧ 0 ≤ r.probability ∧ r.probability ≤ 1 := by
  unfold scanResults at h
  rw [List.reduceOption_mem_iff, List.mem_map] at h
  obtain ⟨sentence, _, hs⟩ := h
  unfold analyzeSentence at hs
  by_cases hlen : (trimChars sentence).length < 15
  · simp [hlen] at hs
  · simp only [hlen, if_false] at hs
    cases hcl : cl (trimChars sentence) with
    | error e =>
      rw [hcl] at hs
      cases hs
    | ok output =>
      rw [hcl] at hs
      simp only [Option.some.injEq] at hs
      rw [← hs]
      exact ⟨rfl, calculateAIProbability_nonneg _ _,
        calculateAIProbability_le_one _ _⟩

theorem runRequests_eq (cl : Classifier) (text : List Char) :
    ∀ (n : Nat) (s : ScanState),
      (runRequests cl text n s).2.engineCalls =
        s.engineCalls + n * scanCalls cl text ∧
      List.Forall (fun rs => rs = scanResults cl text)
        (runRequests cl text n s).1 := by
  intro n
  induction n with
  | zero => intro s; simp [runRequests, List.Forall]
  | succ n ih =>
    intro s
    simp only [runRequests, handleAnalyzeText_eq]
    obtain ⟨ih1, ih2⟩ := ih
      { engineCalls := s.engineCalls + scanCalls cl text,
        analysisStats :=
          updateAnalysisStats s.analysisStats (scanResults cl text) }
    refine ⟨?_, ?_⟩
    · rw [ih1]
      ring
    · rw [List.forall_cons]
      exact ⟨rfl, ih2⟩

theorem initializeModel_dedup (loader : Except String Unit)
    (st : ModelState) (h : st.modelLoadingPromise = none) :
    (initializeModel loader st).2.loadAttempts = st.loadAttempts + 1 ∧
    initializeModel loader (initializeModel loader st).2 =
      ((initializeModel loader st).1, (initializeModel loader st).2) := by
  cases loader with
  | ok u => simp [initializeModel, h]
  | error e => simp [initializeModel, h]

/-- Claim C1 counterexample: scanning the same text twice does NOT invoke
the rule engine at most once in total — with one qualifying sentence the
two scans of `t1` perform two classifier invocations, because
`handleAnalyzeText` has no cache and no key lookup. -/
theorem C1_counterexample :
    ¬ ((handleAnalyzeText clK t1 (handleAnalyzeText clK t1 s0).2).2.engineCalls ≤ 1) := by
  decide

/-- Claim C1 as amended: each scan of the same text performs its own
`scanCalls` fresh classifier invocations (there is no cache, so the
second scan re-invokes the engine), while the second scan still returns
a highlight list identical to the first, the analysis being a pure
function of classifier and text. -/
theorem C1_theorem : ∀ (cl : Classifier) (text : List Char) (s : ScanState),
    (handleAnalyzeText cl text (handleAnalyzeText cl text s).2).1 =
      (handleAnalyzeText cl text s).1 ∧
    (handleAnalyzeText cl text (handleAnalyzeText cl text s).2).2.engineCalls =
      (handleAnalyzeText cl text s).2.engineCalls + scanCalls cl text ∧
    (handleAnalyzeText cl text s).2.engineCalls =
      s.engineCalls + scanCalls cl text := by
  intro cl text s
  rw [handleAnalyzeText_eq, handleAnalyzeText_eq]
  exact ⟨rfl, rfl, rfl⟩

/-- Claim C2 counterexample: two requests for the same uncached text do
NOT result in exactly one rule-engine invocation — they result in two,
because `handleAnalyzeText` has no in-flight de-duplication. -/
theorem C2_counterexample :
    ¬ ((runRequests clK t1 2 s0).2.engineCalls = 1) := by
  decide

/-- Claim C2 as amended: N requests for the same text each perform their
own engine invocations (N·scanCalls in total) while all N callers do
receive the same highlight list; the only in-flight de-duplication in
the code is the shared `modelLoadingPromise` of `initializeModel`, which
runs the load body once and hands every later caller the same promise. -/
theorem C2_theorem : ∀ (cl : Classifier) (text : List Char) (n : Nat)
    (s : ScanState),
    (runRequests cl text n s).2.engineCalls =
      s.engineCalls + n * scanCalls cl text ∧
    List.Forall (fun rs => rs = scanResults cl text)
      (runRequests cl text n s).1 ∧
    (∀ (loader : Except String Unit) (st : ModelState),
      st.modelLoadingPromise = none →
      (initializeModel loader st).2.loadAttempts = st.loadAttempts + 1 ∧
      initializeModel loader (initializeModel loader st).2 =
        ((initializeModel loader st).1, (initializeModel loader st).2)) := by
  intro cl text n s
  obtain ⟨h1, h2⟩ := runRequests_eq cl text n s
  exact ⟨h1, h2, fun loader st h => initializeModel_dedup loader st h⟩

/-- Claim C2 witness: the amended statement instantiated at a concrete
classifier, text, request count and fresh model state. -/
theorem C2_witness :
    (initializeModel (Except.ok ()) mst0).2.loadAttempts = mst0.loadAttempts + 1 ∧
    initializeModel (Except.ok ()) (initializeModel (Except.ok ()) mst0).2 =
      ((initializeModel (Except.ok ()) mst0).1,
        (initializeModel (Except.ok ()) mst0).2) :=
  (C2_theorem clK t1 2 s0).2.2 (Except.ok ()) mst0 rfl

/-- Claim C3 counterexample: the code holds no ruleset version, so after
scanning `t2` and "bumping" (a no-op: no version state exists), the
second scan returns exactly the list the first scan returned — it DOES
return the first-era highlights (a nonempty list of 2 results) — and it
performs two fresh engine invocations, not exactly one. -/
theorem C3_counterexample :
    (handleAnalyzeText clK t2 (handleAnalyzeText clK t2 s0).2).1 =
      (handleAnalyzeText clK t2 s0).1 ∧
    (handleAnalyzeText clK t2 s0).1.length = 2 ∧
    (handleAnalyzeText clK t2 (handleAnalyzeText clK t2 s0).2).2.engineCalls = 4 := by
  refine ⟨?_, by decide, by decide⟩
  rw [handleAnalyzeText_eq, handleAnalyzeText_eq]

/-- Claim C3 as amended: `ScanState` holds no ruleset version and the
scan output is independent of all prior state — a rescan after any
administrative action returns the identical highlight list
`scanResults cl text` and performs `scanCalls` fresh invocations (one
per qualifying sentence, not exactly one per scan). -/
theorem C3_theorem : ∀ (cl : Classifier) (text : List Char)
    (s1 s2 : ScanState),
    (handleAnalyzeText cl text s1).1 = (handleAnalyzeText cl text s2).1 ∧
    (handleAnalyzeText cl text s1).1 = scanResults cl text ∧
    (handleAnalyzeText cl text s1).2.engineCalls =
      s1.engineCalls + scanCalls cl text := by
  intro cl text s1 s2
  rw [handleAnalyzeText_eq, handleAnalyzeText_eq]
  exact ⟨rfl, rfl, rfl⟩

/-- Claim C4 counterexample: three insertions with distinct hashes leave
three live entries in the `feedback` store — more than a capacity of 2
(the spec example capacity); nothing is evicted. -/
theorem C4_counterexample :
    (postMany [(fbBody "h1", "ts1"), (fbBody "h2", "ts2"),
      (fbBody "h3", "ts3")] []).map (fun r => r.text_hash) =
      ["h1", "h2", "h3"] ∧
    ¬ ((postMany [(fbBody "h1", "ts1"), (fbBody "h2", "ts2"),
      (fbBody "h3", "ts3")] []).length ≤ 2) := by
  decide

/-- Claim C4 as amended: the feedback store is unbounded — each
`POST /api/feedback` appends exactly one record and no eviction ever
runs, so after `n` insertions the store holds exactly `initial + n`
entries. -/
theorem C4_theorem : ∀ (reqs : List (FeedbackBody × String))
    (store : List FeedbackRecord),
    (postMany reqs store).length = store.length + reqs.length := by
  intro reqs
  induction reqs with
  | nil => intro store; simp [postMany]
  | cons r rs ih =>
    intro store
    have h := ih (postFeedback store r.1 r.2).1
    simp only [postMany, List.foldl_cons] at h ⊢
    rw [h]
    simp [postFeedback]
    omega

/-- Claim C5 counterexample: after a failed load, the in-flight marker
`modelLoadingPromise` is NOT cleared — a subsequent request (even with a
loader that would now succeed) receives the same stored failure and does
not re-run the load body: the key is permanently stuck. -/
theorem C5_counterexample :
    (initializeModel (Except.error "network error") mst0).2.modelLoadingPromise =
      some (Except.error "network error") ∧
    (initializeModel (Except.ok ())
      (initializeModel (Except.error "network error") mst0).2).1 =
      Except.error "network error" ∧
    (initializeModel (Except.ok ())
      (initializeModel (Except.error "network error") mst0).2).2.loadAttempts = 1 := by
  decide

/-- Claim C5 as amended: on a failed load no loaded model is recorded
(`modelLoaded = false`) and the caller receives the failure, but the
in-flight marker `modelLoadingPromise` is left holding the rejected
promise, so every subsequent request — with any loader — receives the
same failure without a new load attempt. -/
theorem C5_theorem : ∀ (e : String) (st : ModelState),
    st.modelLoadingPromise = none →
    (initializeModel (Except.error e) st).1 = Except.error e ∧
    (initializeModel (Except.error e) st).2.modelLoaded = false ∧
    (initializeModel (Except.error e) st).2.storageModelLoaded = some false ∧
    (initializeModel (Except.error e) st).2.modelLoadingPromise =
      some (Except.error e) ∧
    (initializeModel (Except.error e) st).2.loadAttempts = st.loadAttempts + 1 ∧
    (∀ loader2 : Except String Unit,
      initializeModel loader2 (initializeModel (Except.error e) st).2 =
        (Except.error e, (initializeModel (Except.error e) st).2)) := by
  intro e st h
  simp [initializeModel, h]

/-- Claim C5 witness: the amended statement instantiated at a fresh
model state and a concrete load failure. -/
theorem C5_witness :
    (initializeModel (Except.error "network error") mst0).2.modelLoaded = false ∧
    (initializeModel (Except.error "network error") mst0).2.loadAttempts =
      mst0.loadAttempts + 1 :=
  ⟨(C5_theorem errNet mst0 rfl).2.1,
    (C5_theorem errNet mst0 rfl).2.2.2.2.1⟩

/-- Claim C6 counterexample: with a durable backend that always fails,
the tenth submission still succeeds and the failure stays invisible —
but the locally stored batch is cleared anyway: the already-written
in-memory entries are dropped even though nothing reached the backend. -/
theorem C6_counterexample :
    (handleFeedback postFail fbX 5 st9).1 = Except.ok () ∧
    (handleFeedback postFail fbX 5 st9).2.feedbackData = [] ∧
    (handleFeedback postFail fbX 5 st9).2.backendReceived = [] := by
  decide

/-- Claim C6 as amended: a durable-store failure never fails the request
and is invisible to the caller (`handleFeedback` always resolves `ok`,
`sendFeedbackToBackend` swallows every error), but once the 10-item
batch threshold is reached the in-memory `feedbackData` is cleared
unconditionally — the stored entries are not retained on failure. -/
theorem C6_theorem : ∀ (post : BackendPost) (fb : FeedbackInput)
    (now : Nat) (st : FbState),
    (handleFeedback post fb now st).1 = Except.ok () ∧
    (handleFeedback post fb now st).2.feedbackData =
      (if 10 ≤ st.feedbackData.length + 1 then []
       else st.feedbackData ++
         [{ text := fb.text, probability := fb.probability,
            level := fb.level, feedbackType := fb.feedbackType,
            url := fb.url, timestamp := now }]) := by
  intro post fb now st
  by_cases h : 10 ≤ st.feedbackData.length + 1
  · simp only [handleFeedback, List.length_append, List.length_cons,
      List.length_nil, Nat.zero_add, h, if_true]
    exact ⟨trivial, trivial⟩
  · simp only [handleFeedback, List.length_append, List.length_cons,
      List.length_nil, Nat.zero_add, h, if_false]
    exact ⟨trivial, trivial⟩

/-- Claim C7 counterexample: the value the scan operation resolves with
is an array of per-sentence records, not an object carrying
`highlights`, `rulesetVersion` and `servedFromCache` fields. -/
theorem C7_counterexample :
    jIsArr (analyzeResponse clK t1 s0) = true ∧
    jIsObj (analyzeResponse clK t1 s0) = false ∧
    jHasKey (analyzeResponse clK t1 s0) "rulesetVersion" = false ∧
    jHasKey (analyzeResponse clK t1 s0) "servedFromCache" = false := by
  decide

/-- Claim C7 as amended: for every input the scan operation resolves
with an array, each of whose elements is an object with exactly the
fields `text`, `probability`, `level`, `modelScore`, `modelLabel` — no
`rulesetVersion` and no `servedFromCache` is returned. -/
theorem C7_theorem : ∀ (cl : Classifier) (text : List Char) (s : ScanState),
    jIsArr (analyzeResponse cl text s) = true ∧
    jArrAll (analyzeResponse cl text s) (fun e => decide (jKeys e =
      ["text", "probability", "level", "modelScore", "modelLabel"])) = true := by
  intro cl text s
  refine ⟨rfl, ?_⟩
  show ((handleAnalyzeText cl text s).1.map resultToJson).all _ = true
  rw [List.all_eq_true]
  intro x hx
  rw [List.mem_map] at hx
  obtain ⟨r, _, hr⟩ := hx
  rw [← hr, decide_eq_true_eq]
  rfl

/-- Claim C8 counterexample: the analysis results carry no offsets at
all — no element of the resolved array has a `startOffset` or an
`endOffset` field, so the offset invariant of the claim fails on a
nonempty result. -/
theorem C8_counterexample :
    jArrNonempty (analyzeResponse clK t1 s0) = true ∧
    jArrAll (analyzeResponse clK t1 s0) (fun e => jHasKey e "startOffset") = false ∧
    jArrAll (analyzeResponse clK t1 s0) (fun e => jHasKey e "endOffset") = false := by
  decide

/-- Claim C8 as amended: the returned records carry no offsets; what
does hold is that the sentence segments the scan analyses are produced
by a left-to-right regex match whose spans are well-formed
(`start < end ≤ length of the text`) and pairwise non-overlapping in
ascending source order, and the scanned sentences are exactly the texts
of those spans. -/
theorem C8_theorem : ∀ text : List Char,
    List.Forall (fun x => x.2.1 < x.2.2 ∧ x.2.2 ≤ text.length)
      (matchSentences text) ∧
    List.Pairwise (fun a b => a.2.2 ≤ b.2.1) (matchSentences text) ∧
    splitSentences text = (matchSentences text).map (fun x => x.1) := by
  intro text
  obtain ⟨hb, hp⟩ := sentAuxF_spans text.length text 0
  refine ⟨?_, hp, rfl⟩
  rw [List.forall_iff_forall_mem]
  intro x hx
  obtain ⟨_, h2, h3⟩ := hb x hx
  exact ⟨h2, by simpa using h3⟩

/-- Claim C9 (spec-modelled): normalization is total (a Lean function;
the empty string normalizes to the empty string), idempotent, and key
derivation is deterministic and respects normalization equality. -/
theorem C9_theorem :
    (∀ l : List Char, normalize (normalize l) = normalize l) ∧
    normalize [] = [] ∧
    (∀ l : List Char, deriveKey l = deriveKey l) ∧
    (∀ l1 l2 : List Char, normalize l1 = normalize l2 →
      deriveKey l1 = deriveKey l2) := by
  refine ⟨normalize_idem, rfl, fun l => rfl, ?_⟩
  intro l1 l2 h
  unfold deriveKey
  rw [h]

/-- Claim C9 witness: two texts that normalize identically receive the
same derived key. -/
theorem C9_witness :
    normalize "a  b".data = normalize " a b ".data ∧
    deriveKey "a  b".data = deriveKey " a b ".data :=
  ⟨by decide, C9_theorem.2.2.2 "a  b".data " a b ".data (by decide)⟩

/-- Claim C10: `calculateAIProbability` always lands in [0, 1] (the
heuristic sum is clamped), and every analysis result's level is the
ternary of its probability: high exactly when p > 0.7, medium exactly
when 0.4 < p ≤ 0.7, low exactly when p ≤ 0.4 — one of the three. -/
theorem C10_theorem :
    (∀ (text : List Char) (ms : ℚ),
      0 ≤ calculateAIProbability text ms ∧ calculateAIProbability text ms ≤ 1) ∧
    (∀ (cl : Classifier) (text : List Char) (st : ScanState),
      List.Forall (fun r =>
        r.level = levelOf r.probability ∧
        (r.level = "high" ↔ 7/10 < r.probability) ∧
        (r.level = "medium" ↔ (4/10 < r.probability ∧ r.probability ≤ 7/10)) ∧
        (r.level = "low" ↔ r.probability ≤ 4/10) ∧
        (r.level = "high" ∨ r.level = "medium" ∨ r.level = "low"))
        (handleAnalyzeText cl text st).1) := by
  constructor
  · intro text ms
    exact ⟨calculateAIProbability_nonneg text ms,
      calculateAIProbability_le_one text ms⟩
  · intro cl text st
    rw [handleAnalyzeText_eq]
    rw [List.forall_iff_forall_mem]
    intro r hr
    obtain ⟨hl, _, _⟩ := mem_scanResults hr
    refine ⟨hl, ?_, ?_, ?_, ?_⟩
    · rw [hl]; exact levelOf_high_iff r.probability
    · rw [hl]; exact levelOf_medium_iff r.probability
    · rw [hl]; exact levelOf_low_iff r.probability
    · rw [hl]; unfold levelOf; split_ifs <;> simp

end AiContentMvp
